import Mathlib

/-!
Verification development for the object-materialization core of python-plexapi
(`plexapi/base.py`).  The Python source is shallowly embedded: XML elements
become the inductive `Elem`, Python strings are handled through executable
`List Char` helpers (so that every definition reduces in the kernel), Python
exceptions become `Except`, and the mutable object state of `PlexObject`
becomes an explicit record that operations transform.

All definitions are translated from `plexapi/base.py` except where a doc
comment says `Modelled from the spec:` — those model behaviour of repository
code that is not part of the given source (for example `utils.cast` and the
subclass-specific `_loadData` population routines).
-/

namespace PlexBase

/-! ### Character-list string utilities

Python string primitives (`str.split`, `str.lower`, `str.endswith`,
`urllib.parse.urlparse`, `urllib.parse.parse_qsl`, `int(...)`, `float(...)`)
are modelled by structurally recursive functions over `List Char` so that all
evaluations reduce in the kernel.  Percent-decoding and `+`-decoding of query
strings, Unicode case folding beyond ASCII, and whitespace tolerance of
`int()` are not modelled; no key or query string in scope uses them. -/

/-- ASCII lower-casing of a character list (Python `str.lower`). -/
def lowerCL (s : List Char) : List Char := s.map Char.toLower

/-- Whether `p` is a prefix of `s` (by character equality). -/
def isPrefixCL : List Char → List Char → Bool
  | [], _ => true
  | _ :: _, [] => false
  | p :: ps, c :: cs => p == c && isPrefixCL ps cs

/-- Whether `p` is a suffix of `s` (Python `str.endswith`). -/
def isSuffixCL (p s : List Char) : Bool :=
  if p.length ≤ s.length then p == s.drop (s.length - p.length) else false

/-- Split `s` at the first occurrence of the (non-empty) separator `sep`:
returns the part before it and, when found, the part after it
(Python `str.split(sep, 1)`). -/
def splitFirstCL (sep : List Char) : List Char → List Char × Option (List Char)
  | [] => ([], none)
  | c :: cs =>
    if isPrefixCL sep (c :: cs) then ([], some ((c :: cs).drop sep.length))
    else
      let r := splitFirstCL sep cs
      (c :: r.1, r.2)

/-- Fuel-driven worker for `splitAllCL`; the fuel only needs to exceed the
number of separator occurrences, which `length s + 1` always does. -/
def splitAllFuel (sep : List Char) : Nat → List Char → List (List Char)
  | 0, s => [s]
  | fuel + 1, s =>
    match splitFirstCL sep s with
    | (b, none) => [b]
    | (b, some rest) => b :: splitAllFuel sep fuel rest

/-- Split `s` at every occurrence of `sep` (Python `str.split(sep)`). -/
def splitAllCL (sep s : List Char) : List (List Char) :=
  splitAllFuel sep (s.length + 1) s

/-- Parse a character list as a Python `int` literal: optional sign followed
by at least one decimal digit. -/
def toIntCL (s : List Char) : Option Int :=
  let digits : List Char → Option Nat := fun ds =>
    if ds.isEmpty then none
    else if ds.all Char.isDigit then
      some (ds.foldl (fun n c => n * 10 + (c.toNat - '0'.toNat)) 0)
    else none
  match s with
  | '-' :: rest => (digits rest).map (fun n => -(n : Int))
  | '+' :: rest => (digits rest).map (fun n => (n : Int))
  | _ => (digits s).map (fun n => (n : Int))

/-- Parse a character list as a decimal Python `float` literal
(`[sign] digits [. digits]`), represented exactly as a rational.
Exponent and special float forms are outside the model. -/
def toFloatCL (s : List Char) : Option ℚ :=
  let digitsVal : List Char → Nat := fun ds =>
    ds.foldl (fun n c => n * 10 + (c.toNat - '0'.toNat)) 0
  let core : List Char → Option ℚ := fun t =>
    match splitFirstCL ['.'] t with
    | (intPart, none) =>
      if intPart.isEmpty || ! intPart.all Char.isDigit then none
      else some ((digitsVal intPart : ℤ) : ℚ)
    | (intPart, some fracPart) =>
      if (intPart.isEmpty && fracPart.isEmpty) ||
          ! intPart.all Char.isDigit || ! fracPart.all Char.isDigit then none
      else some (((digitsVal intPart : ℤ) : ℚ) +
        (digitsVal fracPart : ℚ) / ((10 : ℚ) ^ fracPart.length))
  match s with
  | '-' :: rest => (core rest).map (fun q => -q)
  | '+' :: rest => core rest
  | _ => core s

/-- Lexicographic comparison of character lists by code point, shorter
prefixes first (Python string `<`). -/
def ltCL : List Char → List Char → Bool
  | [], [] => false
  | [], _ :: _ => true
  | _ :: _, [] => false
  | a :: as, b :: bs =>
    if a.toNat < b.toNat then true
    else if b.toNat < a.toNat then false
    else ltCL as bs

/-- Whether `needle` occurs as a contiguous substring of `hay`
(Python `needle in hay`). -/
def containsSubCL (hay needle : List Char) : Bool :=
  match hay with
  | [] => needle.isEmpty
  | _ :: rest => isPrefixCL needle hay || containsSubCL rest needle

/-! ### URL parsing model (`urllib.parse`)

`PlexPartialObject.isFullObject` compares the result of
`urlparse(...).path` / `parse_qsl(urlparse(...).query)` on two key strings.
Plex keys are server-relative paths, so the scheme/netloc handling of
`urlparse` never fires; the fragment is split off first, then the query. -/

/-- The part of a URL string before the first `#` (urlsplit strips the
fragment before splitting off the query). -/
def stripFragment (s : String) : List Char :=
  (splitFirstCL ['#'] s.toList).1

/-- The `path` component of a parsed server-relative URL: everything before
the first `?` (after dropping any fragment). -/
def urlPath (s : String) : List Char :=
  (splitFirstCL ['?'] (stripFragment s)).1

/-- The `query` component of a parsed server-relative URL: everything after
the first `?` (after dropping any fragment), or empty if there is none. -/
def urlQuery (s : String) : List Char :=
  match (splitFirstCL ['?'] (stripFragment s)).2 with
  | some q => q
  | none => []

/-- One field of a query string, as `parse_qsl` reports it. -/
def qslField (f : List Char) : Option (String × String) :=
  match splitFirstCL ['='] f with
  | (_, none) => none            -- no '=' and keep_blank_values is false: skipped
  | (n, some v) =>
    if v.isEmpty then none       -- empty value and keep_blank_values is false: skipped
    else some (String.mk n, String.mk v)

/-- Python `parse_qsl` with default arguments: split on `&`, skip empty
fields, fields without `=`, and fields with an empty value. -/
def parseQsl (q : List Char) : List (String × String) :=
  (splitAllCL ['&'] q).filterMap qslField

/-- Boolean subset test between the two query-parameter lists, matching
`set(parse_qsl(..)) <= set(parse_qsl(..))` in the source. -/
def qslSubset (a b : List (String × String)) : Bool :=
  a.all (fun p => b.contains p)

/-- Python truthiness of an optional string (`None` and `''` are falsy). -/
def strTruthy : Option String → Bool
  | none => false
  | some s => ! s.isEmpty

/-- Python `a or b` on optional strings. -/
def pyOrStr (a b : Option String) : Option String :=
  if strTruthy a then a else b

/-- PlexPartialObject.isFullObject, from the source:
`parsed_key = urlparse(self._details_key or self.key)`,
`parsed_initpath = urlparse(self._initpath)`,
`return not self.key or (parsed_key.path == parsed_initpath.path and
set(parse_qsl(parsed_key.query)) <= set(parse_qsl(parsed_initpath.query)))`.
`urlparse(None)` yields empty components, modelled by `Option.getD ""`. -/
def isFullObjectO (key detailsKey initpath : Option String) : Bool :=
  let pk := (pyOrStr detailsKey key).getD ""
  let ip := initpath.getD ""
  (! strTruthy key) ||
    (urlPath pk == urlPath ip && qslSubset (parseQsl (urlQuery pk)) (parseQsl (urlQuery ip)))

/-- The C2 claim's reading of `isFullObject`, stated from the spec's words:
full iff the details path's resource path equals the constructing path's
resource path and the details path's query parameters are a subset of the
constructing path's.  (No disjunct for an absent key.) -/
def isFullClaimC2 (key detailsKey initpath : Option String) : Bool :=
  let pk := (pyOrStr detailsKey key).getD ""
  let ip := initpath.getD ""
  urlPath pk == urlPath ip && qslSubset (parseQsl (urlQuery pk)) (parseQsl (urlQuery ip))

/-! ### XML elements and `_getAttrValue` -/

/-- One element of a server response (`xml.etree.ElementTree.Element`):
a tag, an ordered attribute mapping, and ordered children. -/
inductive Elem where
  | mk (tag : String) (attrs : List (String × String)) (children : List Elem)

/-- The tag of an element. -/
def Elem.tag : Elem → String
  | .mk t _ _ => t

/-- The attribute mapping of an element. -/
def Elem.attrs : Elem → List (String × String)
  | .mk _ a _ => a

/-- The children of an element. -/
def Elem.children : Elem → List Elem
  | .mk _ _ c => c

/-- Element.attrib.get: first value bound to `name` in document order. -/
def attrGet (e : Elem) (name : String) : Option String :=
  (e.attrs.find? (fun p => p.1 == name)).map Prod.snd

/-- Case-insensitive attribute lookup, as in the final loop of
`_getAttrValue`: the first attribute whose lower-cased name matches wins. -/
def findAttrCI (attrs : List (String × String)) (attr : List Char) : Option String :=
  (attrs.find? (fun p => lowerCL p.1.toList == lowerCL attr)).map Prod.snd

/-- PlexObject._getAttrValue, fuel-indexed.  The `st` argument models the
single Python list object that the source threads through the recursion:
every non-leaf level receives the same list (`results`), extends it in place
with each recursive call's return value (`results += self._getAttrValue(child,
attrstr, results)`), and finally returns a fresh filtered copy of it.  The
result pair is (returned list, state of the shared list).  Attribute values
are strings, so the `r is not None` filter in the source never drops
anything and the returned copy equals the shared list.  The fuel is the
length of `attrstr`, which bounds the recursion depth (each level consumes
one `__`-separated segment). -/
def getAttrValueFuel : Nat → Elem → List Char → List (List Char) →
    List (List Char) × List (List Char)
  | 0, _, _, st => (st, st)
  | fuel + 1, elem, attrstr, st =>
    match splitFirstCL ['_', '_'] attrstr with
    | (attr, some rest) =>
      let st' := elem.children.foldl (fun acc c =>
        if lowerCL c.tag.toList == lowerCL attr then
          let r := getAttrValueFuel fuel c rest acc
          r.2 ++ r.1
        else acc) st
      (st', st')
    | (attr, none) =>
      if lowerCL attr == ['e', 't', 'a', 'g'] then ([elem.tag.toList], st)
      else
        match findAttrCI elem.attrs attr with
        | some v => ([v.toList], st)
        | none => ([], st)

/-- PlexObject._getAttrValue as called from `_checkAttrs` (with
`results=None`, so the shared list starts empty at the first non-leaf
level). -/
def getAttrValue (elem : Elem) (attrstr : String) : List String :=
  ((getAttrValueFuel (attrstr.toList.length + 1) elem attrstr.toList []).1).map String.mk

/-! ### Query operators, casting and `_checkAttrs`

Filter operands in the source are arbitrary Python values; the embedding
covers `None`, `bool`, `int` and `str` operands (`float` and list operands
are outside the model).  Extracted attribute values are always strings.
Python exceptions raised during casting or comparison (`ValueError` from
`int(...)`, `TypeError`/`AttributeError` from ill-typed comparisons)
are modelled by `Except Unit`.  The two regular-expression operators
delegate to `re.search`, which is modelled by abstract matcher parameters
`re`/`rei` (case-sensitive and case-insensitive). -/

/-- A filter operand (the value of one `**kwargs` entry). -/
inductive QVal where
  | qnone
  | qbool (b : Bool)
  | qint (n : Int)
  | qstr (s : String)

/-- A cast attribute value, after `_castAttrValue`: a bool, a number
(`int` and `float` both modelled as an exact rational), or a string. -/
inductive CVal where
  | cbool (b : Bool)
  | cnum (q : ℚ)
  | cstr (s : String)

/-- Python truthiness of an operand (used by the `exists` operator). -/
def qvalTruthy : QVal → Bool
  | .qnone => false
  | .qbool b => b
  | .qint n => n != 0
  | .qstr s => ! s.isEmpty

/-- Python `==` between a cast value and an operand.  The cast step aligns
the types (bool with bool, number with int, string with string); all other
combinations compare unequal. -/
def pyEq : CVal → QVal → Bool
  | .cbool b, .qbool c => b == c
  | .cnum a, .qint n => a == (n : ℚ)
  | .cstr s, .qstr t => s == t
  | _, _ => false

/-- Python `<` between a cast value and an operand; `.error` models the
`TypeError` raised on unordered cross-type comparisons (booleans compare
numerically). -/
def pyLt : CVal → QVal → Except Unit Bool
  | .cnum a, .qint n => .ok (a < (n : ℚ))
  | .cbool b, .qbool c => .ok (b.toNat < c.toNat)
  | .cstr s, .qstr t => .ok (ltCL s.toList t.toList)
  | _, _ => .error ()

/-- Python `>` between a cast value and an operand. -/
def pyGt : CVal → QVal → Except Unit Bool
  | .cnum a, .qint n => .ok ((n : ℚ) < a)
  | .cbool b, .qbool c => .ok (c.toNat < b.toNat)
  | .cstr s, .qstr t => .ok (ltCL t.toList s.toList)
  | _, _ => .error ()

/-- The names of the OPERATORS table, in the source's insertion order
(which `_getAttrOperator` iterates). -/
def opNames : List String :=
  ["exact", "iexact", "contains", "icontains", "ne", "in", "gt", "gte",
   "lt", "lte", "startswith", "istartswith", "endswith", "iendswith",
   "exists", "regex", "iregex"]

/-- One operator of the OPERATORS table applied to a cast value and an
operand.  `.error ()` stands for the Python exception the lambda would
raise on that input. -/
def applyOp (re rei : String → String → Bool) (op : String) (v : CVal)
    (q : QVal) : Except Unit Bool :=
  if op == "exact" then .ok (pyEq v q)
  else if op == "iexact" then
    match v, q with
    | .cstr s, .qstr t => .ok (lowerCL s.toList == lowerCL t.toList)
    | _, _ => .error ()
  else if op == "contains" then
    match v, q with
    | .cstr s, .qstr t => .ok (containsSubCL s.toList t.toList)
    | _, _ => .error ()
  else if op == "icontains" then
    match v, q with
    | .cstr s, .qstr t => .ok (containsSubCL (lowerCL s.toList) (lowerCL t.toList))
    | _, _ => .error ()
  else if op == "ne" then .ok (! pyEq v q)
  else if op == "in" then
    match v, q with
    | .cstr s, .qstr t => .ok (containsSubCL t.toList s.toList)
    | _, _ => .error ()
  else if op == "gt" then pyGt v q
  else if op == "gte" then do pure (! (← pyLt v q))
  else if op == "lt" then pyLt v q
  else if op == "lte" then do pure (! (← pyGt v q))
  else if op == "startswith" then
    match v, q with
    | .cstr s, .qstr t => .ok (isPrefixCL t.toList s.toList)
    | _, _ => .error ()
  else if op == "istartswith" then
    match v, q with
    | .cstr s, .qstr t => .ok (isPrefixCL (lowerCL t.toList) (lowerCL s.toList))
    | _, _ => .error ()
  else if op == "endswith" then
    match v, q with
    | .cstr s, .qstr t => .ok (isSuffixCL t.toList s.toList)
    | _, _ => .error ()
  else if op == "iendswith" then
    match v, q with
    | .cstr s, .qstr t => .ok (isSuffixCL (lowerCL t.toList) (lowerCL s.toList))
    | _, _ => .error ()
  else if op == "exists" then
    -- `v is not None if q else v is None`: the cast step passes the raw
    -- string through, so the value is never None.
    .ok (qvalTruthy q)
  else if op == "regex" then
    match v, q with
    | .cstr s, .qstr t => .ok (re t s)
    | _, _ => .error ()
  else if op == "iregex" then
    match v, q with
    | .cstr s, .qstr t => .ok (rei t s)
    | _, _ => .error ()
  else .error ()

/-- PlexObject._getAttrOperator: the first operator name that the key ends
with (as `__op`) is stripped off; otherwise the key is untouched and the
operator defaults to exact match. -/
def getAttrOperator (attr : String) : String × String :=
  match opNames.find? (fun op => isSuffixCL ('_' :: '_' :: op.toList) attr.toList) with
  | some op =>
    (String.mk (attr.toList.take (attr.toList.length - (op.toList.length + 2))), op)
  | none => (attr, "exact")

/-- PlexObject._castAttrValue.  `exists` passes the raw value through;
a boolean operand coerces via `bool(int(value))`; an integer operand
coerces to float when the string contains a dot and to int otherwise;
string and None operands leave the string as is.  (Float operands are
outside the model.)  `.error ()` is the `ValueError` a failed parse
raises. -/
def castAttrValue (op : String) (query : QVal) (value : String) : Except Unit CVal :=
  if op == "exists" then .ok (.cstr value)
  else
    match query with
    | .qbool _ =>
      match toIntCL value.toList with
      | some n => .ok (.cbool (n != 0))
      | none => .error ()
    | .qint _ =>
      if value.toList.contains '.' then
        match toFloatCL value.toList with
        | some q => .ok (.cnum q)
        | none => .error ()
      else
        match toIntCL value.toList with
        | some n => .ok (.cnum (n : ℚ))
        | none => .error ()
    | _ => .ok (.cstr value)

/-- The `for value in values` loop body of `_checkAttrs`: cast each value,
stop at the first one satisfying the operator (OR across occurrences);
exceptions propagate from the first offending value. -/
def anyMatch (re rei : String → String → Bool) (op : String) (query : QVal) :
    List String → Except Unit Bool
  | [] => .ok false
  | v :: vs => do
    let cv ← castAttrValue op query v
    let b ← applyOp re rei op cv query
    if b then .ok true else anyMatch re rei op query vs

/-- Whether the operand is `None`, `0` or `''` under Python `==`
(`query in (None, 0, '')`; note `False == 0`). -/
def isSpecialOperand : QVal → Bool
  | .qnone => true
  | .qint n => n == 0
  | .qbool b => b == false
  | .qstr s => s.isEmpty

/-- Ordered update of the `attrsFound` dict: existing key updated in place,
new key appended (Python dict assignment). -/
def upsertFound : List (String × Bool) → String → Bool → List (String × Bool)
  | [], a, b => [(a, b)]
  | (k, v) :: rest, a, b =>
    if k == a then (k, b) :: rest else (k, v) :: upsertFound rest a b

/-- The loop of PlexObject._checkAttrs over the remaining kwargs, carrying
the `attrsFound` dict.  For each kwarg the operator suffix is stripped, the
values are extracted, the `exact`/missing/special-operand case returns True
for the whole call, and otherwise the OR-across-values verdict is recorded
under the stripped attribute name. -/
def checkAttrsGo (re rei : String → String → Bool) (elem : Elem) :
    List (String × QVal) → List (String × Bool) → Except Unit Bool
  | [], found => .ok (found.all (fun p => p.2))
  | (key, query) :: rest, found =>
    let p := getAttrOperator key
    let values := getAttrValue elem p.1
    if p.2 == "exact" && values.isEmpty && isSpecialOperand query then .ok true
    else do
      let b ← anyMatch re rei p.2 query values
      checkAttrsGo re rei elem rest (upsertFound found p.1 b)

/-- PlexObject._checkAttrs: `attrsFound` starts empty, and the result is
`all(attrsFound.values())`. -/
def checkAttrs (re rei : String → String → Bool) (elem : Elem)
    (kwargs : List (String × QVal)) : Except Unit Bool :=
  checkAttrsGo re rei elem kwargs []

/-! ### PlexObject state: `__setattr__`, cache invalidation, `_reload`,
`PlexPartialObject.__getattribute__`

A Python attribute value on a materialized object: the absent sentinel
`None`, a string, an int, or a list of values (only emptiness of a list
matters to `__getattribute__`; structural equality models Python `==` on
these shapes). -/

inductive PVal where
  | vnone
  | vstr (s : String)
  | vint (n : Int)
  | vlist (n : Nat)   -- a list value, tracked by its length
  deriving DecidableEq

/-- First binding of `attr` in an ordered attribute dict. -/
def lookupAssoc (l : List (String × PVal)) (attr : String) : Option PVal :=
  (l.find? (fun p => p.1 == attr)).map Prod.snd

/-- Whether the dict binds `attr` (`attr in self.__dict__`). -/
def memAssoc (l : List (String × PVal)) (attr : String) : Bool :=
  l.any (fun p => p.1 == attr)

/-- Ordered dict assignment: existing key updated in place, new key
appended. -/
def upsertAssoc : List (String × PVal) → String → PVal → List (String × PVal)
  | [], a, v => [(a, v)]
  | (k, w) :: rest, a, v =>
    if k == a then (k, v) :: rest else (k, w) :: upsertAssoc rest a v

/-- Whether the attribute name is private (Python `attr.startswith('_')`). -/
def startsUnderscore (attr : String) : Bool :=
  match attr.toList with
  | '_' :: _ => true
  | _ => false

/-- PlexObject.__setattr__: don't overwrite an attr with None unless it is a
private variable, the attr is not yet set, or the `_overwriteNone` flag is
true.  `flag` is `self.__dict__.get('_overwriteNone')` coerced to its
truthiness. -/
def pySetattr (flag : Bool) (dict : List (String × PVal)) (attr : String)
    (value : PVal) : List (String × PVal) :=
  if value != PVal.vnone || startsUnderscore attr || ! memAssoc dict attr || flag then
    upsertAssoc dict attr value
  else dict

/-- The value `__init__` gives `_overwriteNone` (source line 98): `True`,
so that outside any reload window `None` does overwrite. -/
def initOverwriteNone : Bool := true

/-- The union of the `_cached_data_properties` sets across a class
hierarchy, as `PlexObjectMeta.__new__` merges every base's set with the
class's own `cached_data_property` names. -/
def classCachedProps (hierarchy : List (List String)) : List String :=
  hierarchy.foldl (fun acc l => acc ++ l) []

/-- A server-response node with a Python object identity (`id(data)`) and
the attribute values the population routine derives from it. -/
structure PNode where
  nid : Nat
  attrs : List (String × PVal)

/-- The mutable state of a PlexObject relevant to reloading: its key, the
path it was constructed from, the cached details key, the auto-reload
configuration, whether its class is a PlexSession/PlexHistory mixin, the
`_overwriteNone` flag, the identity of the backing node (`id(self._data)`,
`none` while `_data` is `None`), the memoized `cached_data_property`
values living in `__dict__`, the public data attributes in `__dict__`,
and an instrumentation counter of performed reloads. -/
structure PObj where
  key : Option String
  initpath : Option String
  detailsKey : Option String
  autoReload : Bool
  sessionOrHistory : Bool
  overwriteNone : Bool
  dataId : Option Nat
  cache : List (String × PVal)
  dict : List (String × PVal)
  reloadCount : Nat

/-- Attribute assignment on the object's dict through `__setattr__`. -/
def setattrObj (obj : PObj) (attr : String) (v : PVal) : PObj :=
  { obj with dict := pySetattr obj.overwriteNone obj.dict attr v }

/-- Modelled from the spec: the type-specific `_loadData` population
routine of a PlexPartialObject variant (the base class's `_loadData` is
abstract in the source).  Per spec section 4.4, every externally visible
field of the variant (`fields`) is populated from the node, through
ordinary attribute assignment, with the absent sentinel for fields the
node does not carry. -/
def loadDataModel (fields : List String) (node : PNode) (obj : PObj) : PObj :=
  fields.foldl (fun o f =>
    setattrObj o f ((lookupAssoc node.attrs f).getD PVal.vnone)) obj

/-- PlexObject._invalidateCachedProperties: delete every registered
cached-property name from the instance dict. -/
def invalidateCachedProps (props : List String) (obj : PObj) : PObj :=
  { obj with cache := obj.cache.filter (fun p => ! props.contains p.1) }

/-- PlexObject._invalidateCacheAndLoadData: remember `id(self._data)`
(where `id(None)` differs from every node identity), replace the backing
node, invalidate the cached properties if the identity changed, then run
the population routine. -/
def invalidateCacheAndLoadData (props fields : List String) (node : PNode)
    (obj : PObj) : PObj :=
  let oldId := obj.dataId
  let obj := { obj with dataId := some node.nid }
  let obj := if some node.nid ≠ oldId then invalidateCachedProps props obj else obj
  loadDataModel fields node obj

/-- A reload failure: `Unsupported` for an object not built from a URL,
`AttributeError` for a missing attribute. -/
inductive PyErr where
  | unsupported
  | attributeError

/-- PlexObject._reload with no key override and no include overrides:
resolve the key as `self._details_key or self.key`, fail when falsy, set
`_initpath`, query the server, populate with `_overwriteNone` set to the
given flag for the duration of the load, then restore it to `True`.
`server` maps a key to the first child of the query response
(`data[0]`). -/
def reloadModel (server : String → PNode) (props fields : List String)
    (ow : Bool) (obj : PObj) : Except PyErr PObj :=
  let key := pyOrStr obj.detailsKey obj.key
  if ! strTruthy key then .error .unsupported
  else
    let obj := { obj with initpath := key }
    let node := server (key.getD "")
    let obj := { obj with overwriteNone := ow }
    let obj := invalidateCacheAndLoadData props fields node obj
    let obj := { obj with overwriteNone := true }
    .ok { obj with reloadCount := obj.reloadCount + 1 }

/-- The module-level `_DONT_RELOAD_FOR_KEYS` exemption list. -/
def dontReloadKeys : List String := ["key", "sourceURI"]

/-- Whether a value is `None` or `[]` under Python `==`
(`value not in (None, [])` negated). -/
def isReloadSentinel : PVal → Bool
  | .vnone => true
  | .vlist 0 => true
  | _ => false

/-- PlexPartialObject.__getattribute__: look the attribute up, return it
unless every reload guard passes (not on either exemption list, public,
value is `None` or `[]`, object not full, not a session/history entry,
auto-reload enabled), in which case reload with `_overwriteNone=False`
and look the attribute up again.  `userKeys` is the runtime-configurable
`USER_DONT_RELOAD_FOR_KEYS` set. -/
def getattribute (server : String → PNode) (props fields userKeys : List String)
    (obj : PObj) (attr : String) : Except PyErr (PVal × PObj) :=
  match lookupAssoc obj.dict attr with
  | none => .error .attributeError
  | some value =>
    if dontReloadKeys.contains attr then .ok (value, obj)
    else if userKeys.contains attr then .ok (value, obj)
    else if startsUnderscore attr then .ok (value, obj)
    else if ! isReloadSentinel value then .ok (value, obj)
    else if isFullObjectO obj.key obj.detailsKey obj.initpath then .ok (value, obj)
    else if obj.sessionOrHistory then .ok (value, obj)
    else if ! obj.autoReload then .ok (value, obj)
    else do
      let obj' ← reloadModel server props fields false obj
      match lookupAssoc obj'.dict attr with
      | none => .error .attributeError
      | some v' => .ok (v', obj')

/-! ### MediaContainer, `findItems` and `fetchItems` -/

/-- Modelled from the spec: `utils.cast(int, ...)` (the casting helper lives
outside the given source).  `None` passes through; a numeric string parses
to its integer value. -/
def castIntO (o : Option String) : Option Int :=
  o.bind (fun s => toIntCL s.toList)

/-- A MediaContainer: the list part plus the envelope metadata attributes
that `MediaContainer._loadData` populates. -/
structure MC (α : Type) where
  items : List α
  allowSync : Option Int
  augmentationKey : Option String
  identifier : Option String
  librarySectionID : Option Int
  librarySectionTitle : Option String
  librarySectionUUID : Option String
  mediaTagPrefix : Option String
  mediaTagVersion : Option String
  offset : Option Int
  size : Option Int
  totalSize : Option Int

/-- MediaContainer construction from an envelope element: the list part
starts empty and `_loadData` reads the metadata attributes
(`mediaTagVersion` is stored uncast in the source). -/
def MC.fromElem (α : Type) (data : Elem) : MC α where
  items := []
  allowSync := castIntO (attrGet data "allowSync")
  augmentationKey := attrGet data "augmentationKey"
  identifier := attrGet data "identifier"
  librarySectionID := castIntO (attrGet data "librarySectionID")
  librarySectionTitle := attrGet data "librarySectionTitle"
  librarySectionUUID := attrGet data "librarySectionUUID"
  mediaTagPrefix := attrGet data "mediaTagPrefix"
  mediaTagVersion := attrGet data "mediaTagVersion"
  offset := castIntO (attrGet data "offset")
  size := castIntO (attrGet data "size")
  totalSize := castIntO (attrGet data "totalSize")

/-- MediaContainer.extend for a MediaContainer argument: append the items,
prefer the new `totalSize`, add the new size (or length) to the old size
(or length, captured before appending), take the minimum of two non-null
offsets (otherwise whichever is non-null), and fill each remaining
metadata attribute from the argument only when it is `None` on the
receiver (every attribute exists after `_loadData`, so the `hasattr`
guards in the source never fire). -/
def MC.extendMC {α : Type} (self other : MC α) : MC α :=
  let currSize : Int := self.size.getD (self.items.length : Int)
  { items := self.items ++ other.items
    totalSize := match other.totalSize with
      | some t => some t
      | none => self.totalSize
    size := some (currSize + (other.size.getD (other.items.length : Int)))
    offset := match self.offset, other.offset with
      | some a, some b => some (min a b)
      | some a, none => some a
      | none, o => o
    allowSync := match self.allowSync with
      | none => other.allowSync
      | some v => some v
    augmentationKey := match self.augmentationKey with
      | none => other.augmentationKey
      | some v => some v
    identifier := match self.identifier with
      | none => other.identifier
      | some v => some v
    librarySectionID := match self.librarySectionID with
      | none => other.librarySectionID
      | some v => some v
    librarySectionTitle := match self.librarySectionTitle with
      | none => other.librarySectionTitle
      | some v => some v
    librarySectionUUID := match self.librarySectionUUID with
      | none => other.librarySectionUUID
      | some v => some v
    mediaTagPrefix := match self.mediaTagPrefix with
      | none => other.mediaTagPrefix
      | some v => some v
    mediaTagVersion := match self.mediaTagVersion with
      | none => other.mediaTagVersion
      | some v => some v }

/-- A materialized item in the pagination model: the element it was built
from plus its (possibly overwritten) `librarySectionID` attribute. -/
abbrev Item : Type := Elem × Option Int

/-- The result of `findItems`: a MediaContainer when the data element was a
`MediaContainer` envelope, a plain list otherwise. -/
inductive FindResult where
  | mc (m : MC Item)
  | plain (l : List Item)

/-- Append one built item to a `findItems` result (list `append`). -/
def FindResult.push : FindResult → Item → FindResult
  | .mc m, it => .mc { m with items := m.items ++ [it] }
  | .plain l, it => .plain (l ++ [it])

/-- The length of a `findItems` result (`len(subresults)`). -/
def FindResult.len : FindResult → Nat
  | .mc m => m.items.length
  | .plain l => l.length

/-- The items of a `findItems` result. -/
def FindResult.itemsOf : FindResult → List Item
  | .mc m => m.items
  | .plain l => l

/-- Overwrite the `librarySectionID` attribute of every item
(`item.librarySectionID = librarySectionID` in the fetch loop). -/
def FindResult.tagSection : FindResult → Int → FindResult
  | .mc m, i => .mc { m with items := m.items.map (fun it => (it.1, some i)) }
  | .plain l, i => .plain (l.map (fun it => (it.1, some i)))

/-- MediaContainer.extend dispatched on the dynamic type of the argument
(`isinstance(__iterable, MediaContainer)`): a plain list only extends the
list part. -/
def MC.extendFR (self : MC Item) : FindResult → MC Item
  | .mc m => self.extendMC m
  | .plain l => { self with items := self.items ++ l }

/-- PlexObject.findItems as invoked from `fetchItems` (no explicit class,
so no `etag`/`type` kwargs are injected, and no root-tag descent): seed a
MediaContainer from the envelope when the data element is one, then append
a built item for every direct child passing `_checkAttrs`, skipping
children the factory does not know (`_buildItemOrNone` returning `None`).
The factory is the `build` parameter; filter errors propagate. -/
def findItemsModel (re rei : String → String → Bool) (build : Elem → Option Item)
    (data : Elem) (kwargs : List (String × QVal)) : Except Unit FindResult :=
  let base : FindResult :=
    if data.tag == "MediaContainer" then .mc (MC.fromElem Item data) else .plain []
  data.children.foldlM (fun acc e => do
    let ok ← checkAttrs re rei e kwargs
    if ok then
      match build e with
      | some it => pure (acc.push it)
      | none => pure acc
    else pure acc) base

/-- Modelled from the spec: the configured default page size
`X_PLEX_CONTAINER_SIZE` (it lives in the package config, outside the given
source; its value is irrelevant to the claims, which pass an explicit
size). -/
def X_PLEX_CONTAINER_SIZE : Int := 100

/-- Python `x or d` for an optional integer (`0` is falsy). -/
def pyOrInt (o : Option Int) (d : Int) : Int :=
  match o with
  | some n => if n == 0 then d else n
  | none => d

/-- The `while True` loop of PlexObject.fetchItems.  `server` maps the two
pagination headers (container start, container size) to the response
element; `log` records every issued query's headers.  Each iteration:
query, filter/build this page via `findItems`, resolve `total_size`
(`totalSize` attribute, else `size` attribute, else the match count — all
through Python `or`, so `'0'` also falls through), tag the matches with the
envelope's `librarySectionID` when truthy, merge into the running
container, advance the start, and stop when the start exceeds
`total_size` or enough items were accumulated (shrinking the page size
under `maxresults`).  The zero-matches branch in the source only logs.
Fuel exhaustion and a propagated filter error both yield `.error ()`;
neither occurs in the verified scenarios. -/
def fetchItemsLoop (re rei : String → String → Bool) (server : Int → Int → Elem)
    (build : Elem → Option Item) (kwargs : List (String × QVal)) (offset : Int)
    (maxresults : Option Int) :
    Nat → Int → Int → MC Item → List (Int × Int) →
    Except Unit (MC Item × List (Int × Int))
  | 0, _, _, _, _ => .error ()
  | fuel + 1, containerStart, containerSize, results, log => do
    let data := server containerStart containerSize
    let log := log ++ [(containerStart, containerSize)]
    let subresults ← findItemsModel re rei build data kwargs
    let totalSize : Int :=
      match castIntO (pyOrStr (attrGet data "totalSize") (attrGet data "size")) with
      | some n => if n == 0 then (subresults.len : Int) else n
      | none => (subresults.len : Int)
    let lsid := castIntO (attrGet data "librarySectionID")
    let subresults :=
      match lsid with
      | some i => if i == 0 then subresults else subresults.tagSection i
      | none => subresults
    let results := results.extendFR subresults
    let containerStart := containerStart + containerSize
    if totalSize < containerStart then .ok (results, log)
    else
      let wanted : Int := totalSize - offset
      let next : Int × Int :=
        match maxresults with
        | some m => (min m wanted, min containerSize (min m wanted - (results.items.length : Int)))
        | none => (wanted, containerSize)
      if next.1 ≤ (results.items.length : Int) then .ok (results, log)
      else
        fetchItemsLoop re rei server build kwargs offset maxresults fuel
          containerStart next.2 results log

/-- PlexObject.fetchItems for a plain string key: default the start to 0
and the size to the configured default (through Python `or`), clamp the
size by `maxresults`, seed an empty MediaContainer from a fresh
`Element('MediaContainer')`, and run the loop. -/
def fetchItemsModel (re rei : String → String → Bool) (server : Int → Int → Elem)
    (build : Elem → Option Item) (kwargs : List (String × QVal))
    (containerStart containerSize maxresults : Option Int) (fuel : Nat) :
    Except Unit (MC Item × List (Int × Int)) :=
  let cs := pyOrInt containerStart 0
  let csize := pyOrInt containerSize X_PLEX_CONTAINER_SIZE
  let csize := match maxresults with
    | some m => min csize m
    | none => csize
  let results := MC.fromElem Item (Elem.mk "MediaContainer" [] [])
  fetchItemsLoop re rei server build kwargs cs maxresults fuel cs csize results []

/-! ### The batch-editing protocol -/

/-- Ordered update of a pending-edits dict with new kwargs
(Python `dict.update`). -/
def updateEdits : List (String × String) → List (String × String) →
    List (String × String)
  | d, [] => d
  | d, (k, v) :: rest => updateEdits (upsertEdits d k v) rest
where
  upsertEdits : List (String × String) → String → String → List (String × String)
    | [], a, v => [(a, v)]
    | (k, w) :: r, a, v => if k == a then (k, v) :: r else (k, w) :: upsertEdits r a v

/-- The editing state of a PlexPartialObject: the pending batch edits
(`self._edits`, `None` outside batch mode) and the log of payloads sent to
the section edit sink (`self.section()._edit(items=self, **kwargs)`). -/
structure EditState where
  edits : Option (List (String × String))
  calls : List (List (String × String))

/-- PlexPartialObject._edit: in batch mode merge the kwargs into the
pending dict without contacting the sink; otherwise add the `type` field
when missing (its value `searchTypeVal` models `utils.searchType`) and
issue one sink call. -/
def editOp (searchTypeVal : String) (kwargs : List (String × String))
    (st : EditState) : EditState :=
  match st.edits with
  | some d => { st with edits := some (updateEdits d kwargs) }
  | none =>
    let kwargs :=
      if kwargs.any (fun p => p.1 == "type") then kwargs
      else kwargs ++ [("type", searchTypeVal)]
    { st with calls := st.calls ++ [kwargs] }

/-- PlexPartialObject.batchEdits: enter batch mode with an empty pending
dict. -/
def batchEditsOp (st : EditState) : EditState :=
  { st with edits := some [] }

/-- PlexPartialObject.saveEdits: fail with `BadRequest` when batch mode was
never entered; otherwise clear the pending dict and apply it through
`_edit` (which, now out of batch mode, issues the single sink call). -/
def saveEditsOp (searchTypeVal : String) (st : EditState) : Except Unit EditState :=
  match st.edits with
  | none => .error ()
  | some d => .ok (editOp searchTypeVal d { st with edits := none })

/-- The payload `_edit` sends outside batch mode: the kwargs plus the
injected `type` field when absent. -/
def withTypeField (searchTypeVal : String) (kwargs : List (String × String)) :
    List (String × String) :=
  if kwargs.any (fun p => p.1 == "type") then kwargs
  else kwargs ++ [("type", searchTypeVal)]

/-! ### Spec-side readings and helpers used to settle the claims -/

/-- The attribute name a filter key resolves to once its operator suffix is
stripped. -/
def strippedAttr (key : String) : String :=
  (getAttrOperator key).1

/-- Whether one filter predicate hits the `exact`-operator / no-values /
special-operand case of `_checkAttrs`. -/
def specialHit (elem : Elem) (kq : String × QVal) : Bool :=
  let p := getAttrOperator kq.1
  p.2 == "exact" && (getAttrValue elem p.1).isEmpty && isSpecialOperand kq.2

/-- Satisfaction of a single filter predicate, read off the claim: some
extracted value satisfies the operator after casting, or the predicate is
an exact match resolving to no values with a `None`/`0`/`''` operand. -/
def predSatisfied (re rei : String → String → Bool) (elem : Elem)
    (kq : String × QVal) : Except Unit Bool :=
  let p := getAttrOperator kq.1
  let values := getAttrValue elem p.1
  if p.2 == "exact" && values.isEmpty && isSpecialOperand kq.2 then .ok true
  else anyMatch re rei p.2 kq.2 values

/-- The C3 claim's reading of `_checkAttrs`: every predicate in the mapping
satisfied (logical AND across keys). -/
def checkAttrsClaimC3 (re rei : String → String → Bool) (elem : Elem)
    (kwargs : List (String × QVal)) : Except Unit Bool := do
  let bs ← kwargs.mapM (predSatisfied re rei elem)
  pure (bs.all id)

/-- Whether an evaluation completed without raising. -/
def exceptIsOk : Except Unit Bool → Bool
  | .ok _ => true
  | .error _ => false

/-- The verdict of an evaluation, with `false` for an exception. -/
def extractOk : Except Unit Bool → Bool
  | .ok b => b
  | .error _ => false

/-- The boolean verdict `_checkAttrs` records for one predicate. -/
def predB (re rei : String → String → Bool) (elem : Elem)
    (kq : String × QVal) : Bool :=
  extractOk (predSatisfied re rei elem kq)

/-- The last entry of the kwargs mapping that strips to the given attribute
name (the one whose verdict survives in the `attrsFound` dict). -/
def lastFor (name : String) : List (String × QVal) → Option (String × QVal)
  | [] => none
  | kq :: ks =>
    match lastFor name ks with
    | some r => some r
    | none => if strippedAttr kq.1 == name then some kq else none

/-- The `attrsFound` dict produced by processing a kwargs list on top of an
existing dict. -/
def foldFound (re rei : String → String → Bool) (elem : Elem)
    (found : List (String × Bool)) (l : List (String × QVal)) : List (String × Bool) :=
  l.foldl (fun f kq => upsertFound f (strippedAttr kq.1) (predB re rei elem kq)) found

/-- The stripped attribute names of a kwargs mapping, in order. -/
def strippedNames (l : List (String × QVal)) : List String :=
  l.map (fun kq => strippedAttr kq.1)

/-- A pagination envelope as the scenario server reports it. -/
def pageElem (off size total : String) (children : List Elem) : Elem :=
  Elem.mk "MediaContainer"
    [("offset", off), ("size", size), ("totalSize", total)] children

/-! ## Theorems -/

theorem qslSubset_iff (a b : List (String × String)) :
    qslSubset a b = true ↔ ∀ p ∈ a, p ∈ b := by
  simp [qslSubset, List.all_eq_true]

theorem qslSubset_refl (a : List (String × String)) : qslSubset a a = true := by
  simp [qslSubset_iff]

/-- C2 (amended): `isFullObject()` returns true iff either the object's key
is falsy (absent or empty — then the object counts as full outright), or
the resource path of the computed details path (ignoring the query string)
equals the resource path of the constructing path and every query
parameter of the details path also occurs among the constructing path's
query parameters.  Apart from the falsy-key disjunct, full/partial status
is the claimed pure function of the two path strings. -/
theorem isFullObject_characterization (key detailsKey initpath : Option String) :
    isFullObjectO key detailsKey initpath = true ↔
      (strTruthy key = false ∨
        (urlPath ((pyOrStr detailsKey key).getD "") = urlPath (initpath.getD "") ∧
          ∀ p ∈ parseQsl (urlQuery ((pyOrStr detailsKey key).getD "")),
            p ∈ parseQsl (urlQuery (initpath.getD "")))) := by
  simp [isFullObjectO, Bool.or_eq_true, Bool.and_eq_true, Bool.not_eq_true',
    qslSubset_iff, beq_iff_eq]

/-- C2 (counterexample): an object with no key (legitimate for ephemeral
entries) constructed from the path `/foo` reports `isFullObject() = true`
through the `not self.key` disjunct, while the claimed path/query-subset
condition evaluates to false (the computed details path parses to an empty
resource path, the constructing path to `/foo`). -/
theorem isFullObject_keyless_cx :
    isFullObjectO none none (some "/foo") = true ∧
    isFullClaimC2 none none (some "/foo") = false := by
  exact ⟨rfl, by decide⟩

/-- C4 (code evaluation at the failing input): a `Video` element with one
`Media` child holding one `Part` child with `container="mp4"`, filtered
with the two-level child path `Media__Part__container`, yields the single
attribute occurrence twice: the recursion extends the shared accumulator
list in place and then appends the returned copy of it again. -/
theorem getAttrValue_duplicates_deep_values :
    getAttrValue
      (Elem.mk "Video" [] [Elem.mk "Media" [] [Elem.mk "Part" [("container", "mp4")] []]])
      "Media__Part__container" = ["mp4", "mp4"] := by
  decide

theorem lookupAssoc_upsert_ne (d : List (String × PVal)) (attr other : String)
    (v : PVal) (h : other ≠ attr) :
    lookupAssoc (upsertAssoc d attr v) other = lookupAssoc d other := by
  have hao : (attr == other) = false := beq_eq_false_iff_ne.mpr (Ne.symm h)
  induction d with
  | nil =>
    simp [upsertAssoc, lookupAssoc, List.find?, hao]
  | cons p rest ih =>
    obtain ⟨k, w⟩ := p
    by_cases hk : k = attr
    · subst hk
      simp [upsertAssoc, lookupAssoc, List.find?, hao]
    · have hk' : (k == attr) = false := beq_eq_false_iff_ne.mpr hk
      by_cases ho : k = other
      · subst ho
        simp [upsertAssoc, lookupAssoc, List.find?, hk']
      · have ho' : (k == other) = false := beq_eq_false_iff_ne.mpr ho
        simp only [upsertAssoc, hk', cond_false, Bool.false_eq_true, if_false]
        simp only [lookupAssoc, List.find?, ho'] at ih ⊢
        exact ih

/-- C6 (counterexample): right after construction the `_overwriteNone`
flag is `True` (source line 98) — that is, outside any reload window —
and assigning `None` to the already-set public attribute `title` does
overwrite the stored value, contrary to the claim that outside an
explicit-reload window `None` never overwrites an already-set
attribute. -/
theorem setattr_default_overwrites_cx :
    initOverwriteNone = true ∧
    pySetattr initOverwriteNone [("title", PVal.vstr "Cars")] "title" PVal.vnone =
      [("title", PVal.vnone)] := by
  exact ⟨rfl, by decide⟩

/-- C6 (amended): assignment always stores a non-`None` value, always
stores into a not-yet-set attribute, and always stores when the
overwrite-`None` flag is true (the default state from construction,
including outside any reload and during a manual reload); only with the
flag false — which the code arranges solely for the duration of the
automatic reload, and `_reload` always restores the flag to true — does
assigning `None` to an already-set public attribute leave the dict
unchanged.  Assignment never disturbs other attributes. -/
theorem setattr_protocol :
    (∀ (flag : Bool) (d : List (String × PVal)) (attr : String) (v : PVal),
      v ≠ PVal.vnone → pySetattr flag d attr v = upsertAssoc d attr v) ∧
    (∀ (flag : Bool) (d : List (String × PVal)) (attr : String) (v : PVal),
      memAssoc d attr = false → pySetattr flag d attr v = upsertAssoc d attr v) ∧
    (∀ (d : List (String × PVal)) (attr : String) (v : PVal),
      pySetattr true d attr v = upsertAssoc d attr v) ∧
    (∀ (d : List (String × PVal)) (attr : String),
      startsUnderscore attr = false → memAssoc d attr = true →
      pySetattr false d attr PVal.vnone = d) ∧
    (∀ (flag : Bool) (d : List (String × PVal)) (attr other : String) (v : PVal),
      other ≠ attr →
      lookupAssoc (pySetattr flag d attr v) other = lookupAssoc d other) ∧
    (∀ (server : String → PNode) (props fields : List String) (ow : Bool)
      (obj obj' : PObj),
      reloadModel server props fields ow obj = .ok obj' →
      obj'.overwriteNone = true) := by
  refine ⟨?_, ?_, ?_, ?_, ?_, ?_⟩
  · intro flag d attr v h
    simp [pySetattr, bne_iff_ne, h]
  · intro flag d attr v h
    simp [pySetattr, h]
  · intro d attr v
    simp [pySetattr]
  · intro d attr h hm
    simp [pySetattr, h, hm]
  · intro flag d attr other v h
    by_cases hc : (v != PVal.vnone || startsUnderscore attr || ! memAssoc d attr
        || flag) = true
    · rw [pySetattr, if_pos hc]
      exact lookupAssoc_upsert_ne d attr other v h
    · rw [pySetattr, if_neg hc]
  · intro server props fields ow obj obj' h
    cases hb : strTruthy (pyOrStr obj.detailsKey obj.key) with
    | false =>
      simp only [reloadModel, hb, Bool.not_false] at h
      rw [if_pos trivial] at h
      exact absurd h (by simp)
    | true =>
      simp only [reloadModel, hb, Bool.not_true, Bool.false_eq_true] at h
      rw [if_neg not_false] at h
      injection h with h2
      rw [← h2]

/-- C6 (witness): concrete instances of the amended protocol — a non-None
value always stores, and with the flag cleared a `None` assignment to a
set public attribute is skipped. -/
theorem setattr_protocol_witness :
    pySetattr false [("a", PVal.vnone)] "a" (PVal.vint 3) = [("a", PVal.vint 3)] ∧
    pySetattr false [("a", PVal.vstr "x")] "a" PVal.vnone = [("a", PVal.vstr "x")] := by
  constructor
  · exact (setattr_protocol.1 false [("a", PVal.vnone)] "a" (PVal.vint 3)
      (by decide)).trans (by decide)
  · exact setattr_protocol.2.2.2.1 [("a", PVal.vstr "x")] "a" (by decide) (by decide)

theorem loadData_cons (f : String) (fs : List String) (node : PNode) (o : PObj) :
    loadDataModel (f :: fs) node o =
      loadDataModel fs node (setattrObj o f ((lookupAssoc node.attrs f).getD PVal.vnone)) :=
  rfl

/-- The population routine only writes the attribute dict: the object it
returns agrees with its input everywhere else. -/
theorem loadData_eq (fields : List String) (node : PNode) :
    ∀ o : PObj, loadDataModel fields node o =
      { o with dict := (loadDataModel fields node o).dict } := by
  induction fields with
  | nil => intro o; rfl
  | cons f fs ih =>
    intro o
    rw [loadData_cons]
    exact ih _

theorem loadData_cache (fields : List String) (node : PNode) (o : PObj) :
    (loadDataModel fields node o).cache = o.cache := by
  conv_lhs => rw [loadData_eq fields node o]

theorem loadData_dataId (fields : List String) (node : PNode) (o : PObj) :
    (loadDataModel fields node o).dataId = o.dataId := by
  conv_lhs => rw [loadData_eq fields node o]

/-- C5: `_invalidateCacheAndLoadData` replaces the backing node, and —
with the registered cached-property names formed as the union over the
class hierarchy — deletes exactly those memoized entries from the instance
when the new node is a different object instance than the previous one,
while leaving every memoized value untouched when the node instance is
unchanged. -/
theorem invalidateCache_node_identity (hierarchy : List (List String))
    (fields : List String) (node : PNode) (obj : PObj) :
    (invalidateCacheAndLoadData (classCachedProps hierarchy) fields node obj).dataId
        = some node.nid ∧
    (invalidateCacheAndLoadData (classCachedProps hierarchy) fields node obj).cache =
      (if obj.dataId = some node.nid then obj.cache
       else obj.cache.filter (fun p => ! (classCachedProps hierarchy).contains p.1)) := by
  by_cases h : obj.dataId = some node.nid
  · have hne : ¬ (some node.nid ≠ obj.dataId) := by simp [h]
    constructor
    · simp only [invalidateCacheAndLoadData, if_neg hne, loadData_dataId]
    · simp only [invalidateCacheAndLoadData, if_neg hne, loadData_cache, if_pos h]
  · have hne : some node.nid ≠ obj.dataId := fun hc => h hc.symm
    constructor
    · simp only [invalidateCacheAndLoadData, if_pos hne, loadData_dataId,
        invalidateCachedProps]
    · simp only [invalidateCacheAndLoadData, if_pos hne, loadData_cache,
        invalidateCachedProps, if_neg h]

/-- C8: merging another MediaContainer in through `extend` takes the
minimum of the two offsets when both are non-null and otherwise whichever
is non-null; adds the argument's size (or its item count when its size is
unset) to the receiver's size (or its pre-merge item count when unset);
and fills each provenance attribute from the argument exactly when it was
`None` on the receiver. -/
theorem mc_extend_merge {α : Type} (a b : MC α) :
    (∀ x y : Int, a.offset = some x → b.offset = some y →
      (a.extendMC b).offset = some (min x y)) ∧
    (∀ x : Int, a.offset = some x → b.offset = none →
      (a.extendMC b).offset = some x) ∧
    (a.offset = none → (a.extendMC b).offset = b.offset) ∧
    ((a.extendMC b).size =
      some (a.size.getD (a.items.length : Int) + b.size.getD (b.items.length : Int))) ∧
    ((a.extendMC b).allowSync =
      if a.allowSync = none then b.allowSync else a.allowSync) ∧
    ((a.extendMC b).augmentationKey =
      if a.augmentationKey = none then b.augmentationKey else a.augmentationKey) ∧
    ((a.extendMC b).identifier =
      if a.identifier = none then b.identifier else a.identifier) ∧
    ((a.extendMC b).librarySectionID =
      if a.librarySectionID = none then b.librarySectionID else a.librarySectionID) ∧
    ((a.extendMC b).librarySectionTitle =
      if a.librarySectionTitle = none then b.librarySectionTitle
      else a.librarySectionTitle) ∧
    ((a.extendMC b).librarySectionUUID =
      if a.librarySectionUUID = none then b.librarySectionUUID
      else a.librarySectionUUID) ∧
    ((a.extendMC b).mediaTagPrefix =
      if a.mediaTagPrefix = none then b.mediaTagPrefix else a.mediaTagPrefix) ∧
    ((a.extendMC b).mediaTagVersion =
      if a.mediaTagVersion = none then b.mediaTagVersion else a.mediaTagVersion) := by
  refine ⟨?_, ?_, ?_, ?_, ?_, ?_, ?_, ?_, ?_, ?_, ?_, ?_⟩
  · intro x y hx hy; simp [MC.extendMC, hx, hy]
  · intro x hx hy; simp [MC.extendMC, hx, hy]
  · intro hx; simp [MC.extendMC, hx]
  · simp [MC.extendMC]
  · cases h : a.allowSync <;> simp [MC.extendMC, h]
  · cases h : a.augmentationKey <;> simp [MC.extendMC, h]
  · cases h : a.identifier <;> simp [MC.extendMC, h]
  · cases h : a.librarySectionID <;> simp [MC.extendMC, h]
  · cases h : a.librarySectionTitle <;> simp [MC.extendMC, h]
  · cases h : a.librarySectionUUID <;> simp [MC.extendMC, h]
  · cases h : a.mediaTagPrefix <;> simp [MC.extendMC, h]
  · cases h : a.mediaTagVersion <;> simp [MC.extendMC, h]

/-- C8 (witness): a concrete merge — offsets 5 and 3 merge to 3, size 2
plus item count 1 gives 3, a set `allowSync` survives, an unset
`augmentationKey` is filled from the argument. -/
theorem mc_extend_merge_witness :
    (MC.extendMC
      (⟨[0, 1], some 1, none, none, none, none, none, none, none, some 5, some 2, some 10⟩ : MC Nat)
      ⟨[2], none, some "k", none, none, none, none, none, none, some 3, none, some 7⟩).offset
        = some 3 ∧
    (MC.extendMC
      (⟨[0, 1], some 1, none, none, none, none, none, none, none, some 5, some 2, some 10⟩ : MC Nat)
      ⟨[2], none, some "k", none, none, none, none, none, none, some 3, none, some 7⟩).size
        = some 3 ∧
    (MC.extendMC
      (⟨[0, 1], some 1, none, none, none, none, none, none, none, some 5, some 2, some 10⟩ : MC Nat)
      ⟨[2], none, some "k", none, none, none, none, none, none, some 3, none, some 7⟩).allowSync
        = some 1 ∧
    (MC.extendMC
      (⟨[0, 1], some 1, none, none, none, none, none, none, none, some 5, some 2, some 10⟩ : MC Nat)
      ⟨[2], none, some "k", none, none, none, none, none, none, some 3, none, some 7⟩).augmentationKey
        = some "k" := by
  refine ⟨?_, ?_, ?_, ?_⟩
  · have h := (mc_extend_merge
      (⟨[0, 1], some 1, none, none, none, none, none, none, none, some 5, some 2, some 10⟩ : MC Nat)
      ⟨[2], none, some "k", none, none, none, none, none, none, some 3, none, some 7⟩).1
      5 3 rfl rfl
    simpa using h
  · have h := (mc_extend_merge
      (⟨[0, 1], some 1, none, none, none, none, none, none, none, some 5, some 2, some 10⟩ : MC Nat)
      ⟨[2], none, some "k", none, none, none, none, none, none, some 3, none, some 7⟩).2.2.2.1
    simpa using h
  · have h := (mc_extend_merge
      (⟨[0, 1], some 1, none, none, none, none, none, none, none, some 5, some 2, some 10⟩ : MC Nat)
      ⟨[2], none, some "k", none, none, none, none, none, none, some 3, none, some 7⟩).2.2.2.2.1
    simpa using h
  · have h := (mc_extend_merge
      (⟨[0, 1], some 1, none, none, none, none, none, none, none, some 5, some 2, some 10⟩ : MC Nat)
      ⟨[2], none, some "k", none, none, none, none, none, none, some 3, none, some 7⟩).2.2.2.2.2.1
    simpa using h

theorem editOp_batch (tv : String) (e : List (String × String))
    (d : List (String × String)) (calls : List (List (String × String))) :
    editOp tv e ⟨some d, calls⟩ = ⟨some (updateEdits d e), calls⟩ :=
  rfl

theorem foldEdit_batch (tv : String) (es : List (List (String × String))) :
    ∀ (d : List (String × String)) (calls : List (List (String × String))),
      es.foldl (fun s e => editOp tv e s) ⟨some d, calls⟩ =
        ⟨some (es.foldl updateEdits d), calls⟩ := by
  induction es with
  | nil => intro d calls; rfl
  | cons e es ih =>
    intro d calls
    rw [List.foldl_cons, editOp_batch, List.foldl_cons]
    exact ih _ _

/-- C9: `saveEdits()` without a preceding `batchEdits()` fails with
`BadRequest` and issues no edit call; after `batchEdits()`, any sequence
of `_edit` calls only accumulates into the pending dict without touching
the edit sink, and `saveEdits()` then issues exactly one sink call whose
payload is the union (ordered dict update) of all accumulated fields —
plus the injected `type` field when absent — and clears the pending
state. -/
theorem batchEdits_protocol :
    (∀ (tv : String) (calls : List (List (String × String))),
      saveEditsOp tv ⟨none, calls⟩ = .error ()) ∧
    (∀ (tv : String) (st : EditState) (es : List (List (String × String))),
      (es.foldl (fun s e => editOp tv e s) (batchEditsOp st)).calls = st.calls ∧
      saveEditsOp tv (es.foldl (fun s e => editOp tv e s) (batchEditsOp st)) =
        .ok ⟨none, st.calls ++ [withTypeField tv (es.foldl updateEdits [])]⟩) := by
  constructor
  · intro tv calls; rfl
  · intro tv st es
    have h : es.foldl (fun s e => editOp tv e s) (batchEditsOp st) =
        ⟨some (es.foldl updateEdits []), st.calls⟩ := by
      have hb : batchEditsOp st = (⟨some [], st.calls⟩ : EditState) := rfl
      rw [hb]
      exact foldEdit_batch tv es [] st.calls
    rw [h]
    exact ⟨rfl, rfl⟩

theorem except_bind_ok {ε α β : Type} (a : α) (f : α → Except ε β) :
    (Except.ok a >>= f) = f a :=
  rfl

theorem memAssoc_upsert_of_mem (d : List (String × PVal)) (a attr : String)
    (v : PVal) (h : memAssoc d attr = true) :
    memAssoc (upsertAssoc d a v) attr = true := by
  induction d with
  | nil => simp [memAssoc] at h
  | cons p rest ih =>
    obtain ⟨k, w⟩ := p
    simp only [memAssoc, List.any_cons, Bool.or_eq_true] at h
    by_cases hk : (k == a) = true
    · simp only [upsertAssoc, hk, if_true, memAssoc, List.any_cons, Bool.or_eq_true]
      simpa [memAssoc] using h
    · simp only [upsertAssoc, hk, Bool.false_eq_true, if_false, memAssoc,
        List.any_cons, Bool.or_eq_true] at *
      rcases h with h | h
      · exact Or.inl h
      · exact Or.inr (ih h)

theorem pySetattr_mem (flag : Bool) (d : List (String × PVal)) (a attr : String)
    (v : PVal) (h : memAssoc d attr = true) :
    memAssoc (pySetattr flag d a v) attr = true := by
  rw [pySetattr]
  by_cases hc : (v != PVal.vnone || startsUnderscore a || ! memAssoc d a || flag) = true
  · rw [if_pos hc]; exact memAssoc_upsert_of_mem d a attr v h
  · rw [if_neg hc]; exact h

theorem loadData_mem (fields : List String) (node : PNode) :
    ∀ (o : PObj) (attr : String), memAssoc o.dict attr = true →
      memAssoc (loadDataModel fields node o).dict attr = true := by
  induction fields with
  | nil => intro o attr h; exact h
  | cons f fs ih =>
    intro o attr h
    rw [loadData_cons]
    exact ih _ attr (pySetattr_mem _ _ _ _ _ h)

theorem memAssoc_lookup (d : List (String × PVal)) (attr : String)
    (h : memAssoc d attr = true) : ∃ v, lookupAssoc d attr = some v := by
  induction d with
  | nil => simp [memAssoc] at h
  | cons p rest ih =>
    obtain ⟨k, w⟩ := p
    by_cases hk : (k == attr) = true
    · exact ⟨w, by simp [lookupAssoc, List.find?, hk]⟩
    · simp only [memAssoc, List.any_cons, Bool.or_eq_true] at h
      rcases h with h | h
      · exact absurd h hk
      · obtain ⟨v, hv⟩ := ih h
        refine ⟨v, ?_⟩
        simp only [lookupAssoc, List.find?] at hv ⊢
        rw [show (k == attr) = false by simpa using hk]
        exact hv

theorem lookup_memAssoc (d : List (String × PVal)) (attr : String) (v : PVal)
    (h : lookupAssoc d attr = some v) : memAssoc d attr = true := by
  induction d with
  | nil => simp [lookupAssoc, List.find?] at h
  | cons p rest ih =>
    obtain ⟨k, w⟩ := p
    by_cases hk : (k == attr) = true
    · simp [memAssoc, List.any_cons, hk]
    · simp only [lookupAssoc, List.find?] at h ih
      rw [show (k == attr) = false by simpa using hk] at h
      simp only [memAssoc, List.any_cons, Bool.or_eq_true]
      exact Or.inr (ih h)

/-- After a reload with no overrides, the details path is the new
constructing path, so the object reports itself full (the resource paths
coincide and the query-parameter subset relation is reflexive). -/
theorem isFull_self (key dk : Option String) (h : strTruthy dk = true) :
    isFullObjectO key dk dk = true := by
  simp [isFullObjectO, pyOrStr, h, qslSubset_refl]

theorem invalidate_mem (props fields : List String) (node : PNode) (o : PObj)
    (attr : String) (h : memAssoc o.dict attr = true) :
    memAssoc (invalidateCacheAndLoadData props fields node o).dict attr = true := by
  rw [invalidateCacheAndLoadData]
  by_cases hc : some node.nid ≠ o.dataId
  · rw [if_pos hc]
    exact loadData_mem fields node _ attr h
  · rw [if_neg hc]
    exact loadData_mem fields node _ attr h

/-- `_invalidateCacheAndLoadData` only rewrites the backing-node identity,
the cached properties and the attribute dict; every other component is
unchanged. -/
theorem invalidate_shape (props fields : List String) (node : PNode) (o : PObj) :
    ∃ c, invalidateCacheAndLoadData props fields node o =
      { o with
        dataId := some node.nid
        cache := c
        dict := (invalidateCacheAndLoadData props fields node o).dict } := by
  rw [invalidateCacheAndLoadData]
  by_cases hc : some node.nid ≠ o.dataId
  · rw [if_pos hc]
    exact ⟨_, loadData_eq _ _ _⟩
  · rw [if_neg hc]
    exact ⟨_, loadData_eq _ _ _⟩

/-- A successful `_reload` bumps the reload counter, points `_initpath` at
the details path, restores the overwrite flag, leaves the identifying
state untouched, and keeps every already-present dict attribute
present. -/
theorem reloadModel_props (server : String → PNode) (props fields : List String)
    (ow : Bool) (obj obj' : PObj) (hdk : strTruthy obj.detailsKey = true)
    (h : reloadModel server props fields ow obj = .ok obj') :
    obj'.reloadCount = obj.reloadCount + 1 ∧
    obj'.initpath = obj.detailsKey ∧
    obj'.detailsKey = obj.detailsKey ∧
    obj'.key = obj.key ∧
    obj'.sessionOrHistory = obj.sessionOrHistory ∧
    obj'.autoReload = obj.autoReload ∧
    obj'.overwriteNone = true ∧
    (∀ attr, memAssoc obj.dict attr = true → memAssoc obj'.dict attr = true) := by
  have hpy : pyOrStr obj.detailsKey obj.key = obj.detailsKey := by
    simp [pyOrStr, hdk]
  simp only [reloadModel, hpy, hdk, Bool.not_true, Bool.false_eq_true] at h
  rw [if_neg not_false] at h
  injection h with h2
  obtain ⟨c, hshape⟩ := invalidate_shape props fields
    (server (obj.detailsKey.getD ""))
    { obj with initpath := obj.detailsKey, overwriteNone := ow }
  rw [hshape] at h2
  subst h2
  refine ⟨rfl, rfl, rfl, rfl, rfl, rfl, rfl, ?_⟩
  intro attr hmem
  have := invalidate_mem props fields (server (obj.detailsKey.getD ""))
    { obj with initpath := obj.detailsKey, overwriteNone := ow } attr hmem
  rw [hshape] at this
  exact this

/-- A reload succeeds whenever the cached details key is truthy. -/
theorem reloadModel_isOk (server : String → PNode) (props fields : List String)
    (ow : Bool) (obj : PObj) (hdk : strTruthy obj.detailsKey = true) :
    ∃ obj', reloadModel server props fields ow obj = .ok obj' := by
  have hpy : pyOrStr obj.detailsKey obj.key = obj.detailsKey := by
    simp [pyOrStr, hdk]
  simp only [reloadModel, hpy, hdk, Bool.not_true, Bool.false_eq_true]
  rw [if_neg not_false]
  exact ⟨_, rfl⟩

/-- C1: on a partial object with auto-reload on, outside the
session/history exemption, reading a public non-exempt attribute whose
current value is `None` performs exactly one reload — re-fetching through
the object's details path, which becomes the new `_initpath` — and
returns the attribute's post-reload value; reading the same attribute
again on the resulting object (even if it is still absent) performs no
further reload and returns the same value and state. -/
theorem getattribute_reload_once (server : String → PNode)
    (props fields userKeys : List String) (obj : PObj) (attr : String)
    (hd : dontReloadKeys.contains attr = false)
    (hu : userKeys.contains attr = false)
    (hp : startsUnderscore attr = false)
    (hv : lookupAssoc obj.dict attr = some PVal.vnone)
    (hfull : isFullObjectO obj.key obj.detailsKey obj.initpath = false)
    (hsh : obj.sessionOrHistory = false)
    (har : obj.autoReload = true)
    (hdk : strTruthy obj.detailsKey = true) :
    ∃ v' obj', getattribute server props fields userKeys obj attr = .ok (v', obj') ∧
      obj'.reloadCount = obj.reloadCount + 1 ∧
      obj'.initpath = obj.detailsKey ∧
      lookupAssoc obj'.dict attr = some v' ∧
      getattribute server props fields userKeys obj' attr = .ok (v', obj') := by
  obtain ⟨obj', hre⟩ := reloadModel_isOk server props fields false obj hdk
  obtain ⟨hrc, hip, hdkeep, hkey, hsess, hauto, how, hmempres⟩ :=
    reloadModel_props server props fields false obj obj' hdk hre
  have hmem : memAssoc obj.dict attr = true := lookup_memAssoc _ _ _ hv
  obtain ⟨v', hv'⟩ := memAssoc_lookup _ _ (hmempres attr hmem)
  have hd' : attr ∉ dontReloadKeys := by simpa using hd
  have hu' : attr ∉ userKeys := by simpa using hu
  refine ⟨v', obj', ?_, hrc, hip, hv', ?_⟩
  · simp [getattribute, hv, hd', hu', hp, hfull, hsh, har, hre,
      isReloadSentinel]
    rw [except_bind_ok, hv']
  · by_cases hsent : isReloadSentinel v' = true
    · have hfull' : isFullObjectO obj'.key obj'.detailsKey obj'.initpath = true := by
        rw [hip, hdkeep]
        exact isFull_self obj'.key obj.detailsKey hdk
      simp [getattribute, hv', hd', hu', hp, hsent, hfull']
    · simp [getattribute, hv', hd', hu', hp, hsent]

/-- C1 (witness): a concrete partial movie-like object whose `title` is
the absent sentinel; accessing `title` reloads once via the details path
and yields the fetched value. -/
theorem getattribute_reload_once_witness :
    ∃ v' obj',
      getattribute (fun _ => ⟨1, [("title", PVal.vstr "Cars")]⟩) [] ["title"] []
        ⟨some "/library/metadata/1", some "/library/metadata/1",
          some "/library/metadata/1?includeChapters=1", true, false, true,
          none, [], [("title", PVal.vnone)], 0⟩ "title" = .ok (v', obj') ∧
      obj'.reloadCount =
        (⟨some "/library/metadata/1", some "/library/metadata/1",
          some "/library/metadata/1?includeChapters=1", true, false, true,
          none, [], [("title", PVal.vnone)], 0⟩ : PObj).reloadCount + 1 ∧
      obj'.initpath = some "/library/metadata/1?includeChapters=1" ∧
      lookupAssoc obj'.dict "title" = some v' ∧
      getattribute (fun _ => ⟨1, [("title", PVal.vstr "Cars")]⟩) [] ["title"] []
        obj' "title" = .ok (v', obj') :=
  getattribute_reload_once (fun _ => ⟨1, [("title", PVal.vstr "Cars")]⟩)
    [] ["title"] []
    ⟨some "/library/metadata/1", some "/library/metadata/1",
      some "/library/metadata/1?includeChapters=1", true, false, true,
      none, [], [("title", PVal.vnone)], 0⟩ "title"
    (by decide) (by decide) (by decide) (by decide) (by decide) (by decide)
    (by decide) (by decide)

/-- C10: the empty list is a reload sentinel exactly like `None` — on a
partial, auto-reloadable, non-session/history object a public non-exempt
attribute holding `[]` triggers a reload — while any value that is
neither `None` nor `[]` is returned as is, with the object state
untouched and no reload performed. -/
theorem getattribute_empty_list_sentinel (server : String → PNode)
    (props fields userKeys : List String) (obj : PObj) (attr : String) (v : PVal)
    (hd : dontReloadKeys.contains attr = false)
    (hu : userKeys.contains attr = false)
    (hp : startsUnderscore attr = false)
    (hv : lookupAssoc obj.dict attr = some v)
    (hfull : isFullObjectO obj.key obj.detailsKey obj.initpath = false)
    (hsh : obj.sessionOrHistory = false)
    (har : obj.autoReload = true)
    (hdk : strTruthy obj.detailsKey = true) :
    (v = PVal.vlist 0 →
      ∃ v' obj', getattribute server props fields userKeys obj attr = .ok (v', obj') ∧
        obj'.reloadCount = obj.reloadCount + 1) ∧
    (isReloadSentinel v = false →
      getattribute server props fields userKeys obj attr = .ok (v, obj)) := by
  have hd' : attr ∉ dontReloadKeys := by simpa using hd
  have hu' : attr ∉ userKeys := by simpa using hu
  constructor
  · intro hempty
    subst hempty
    obtain ⟨obj', hre⟩ := reloadModel_isOk server props fields false obj hdk
    obtain ⟨hrc, _, _, _, _, _, _, hmempres⟩ :=
      reloadModel_props server props fields false obj obj' hdk hre
    have hmem : memAssoc obj.dict attr = true := lookup_memAssoc _ _ _ hv
    obtain ⟨v', hv'⟩ := memAssoc_lookup _ _ (hmempres attr hmem)
    refine ⟨v', obj', ?_, hrc⟩
    simp [getattribute, hv, hd', hu', hp, hfull, hsh, har, hre,
      isReloadSentinel]
    rw [except_bind_ok, hv']
  · intro hsent
    simp [getattribute, hv, hd', hu', hp, hsent]

/-- C10 (witness): a concrete object whose `media` attribute is the empty
list reloads once on access, and one whose `media` is a non-empty string
is returned without a reload. -/
theorem getattribute_empty_list_sentinel_witness :
    (∃ v' obj',
      getattribute (fun _ => ⟨1, [("media", PVal.vint 4)]⟩) [] ["media"] []
        ⟨some "/library/metadata/1", some "/library/metadata/1",
          some "/library/metadata/1?includeChapters=1", true, false, true,
          none, [], [("media", PVal.vlist 0)], 0⟩ "media" = .ok (v', obj') ∧
      obj'.reloadCount = 1) ∧
    getattribute (fun _ => ⟨1, [("media", PVal.vint 4)]⟩) [] ["media"] []
      ⟨some "/library/metadata/1", some "/library/metadata/1",
        some "/library/metadata/1?includeChapters=1", true, false, true,
        none, [], [("media", PVal.vstr "x")], 0⟩ "media" =
      .ok (PVal.vstr "x",
        ⟨some "/library/metadata/1", some "/library/metadata/1",
          some "/library/metadata/1?includeChapters=1", true, false, true,
          none, [], [("media", PVal.vstr "x")], 0⟩) := by
  constructor
  · exact (getattribute_empty_list_sentinel
      (fun _ => ⟨1, [("media", PVal.vint 4)]⟩) [] ["media"] []
      ⟨some "/library/metadata/1", some "/library/metadata/1",
        some "/library/metadata/1?includeChapters=1", true, false, true,
        none, [], [("media", PVal.vlist 0)], 0⟩ "media" (PVal.vlist 0)
      (by decide) (by decide) (by decide) (by decide) (by decide) (by decide)
      (by decide) (by decide)).1 rfl
  · exact (getattribute_empty_list_sentinel
      (fun _ => ⟨1, [("media", PVal.vint 4)]⟩) [] ["media"] []
      ⟨some "/library/metadata/1", some "/library/metadata/1",
        some "/library/metadata/1?includeChapters=1", true, false, true,
        none, [], [("media", PVal.vstr "x")], 0⟩ "media" (PVal.vstr "x")
      (by decide) (by decide) (by decide) (by decide) (by decide) (by decide)
      (by decide) (by decide)).2 (by decide)

/-- C3 (counterexample): on an element with no attributes, the kwargs
mapping `{a: None, b: "x"}` makes `_checkAttrs` return `True` — the first
predicate hits the exact/missing/special-operand case and the code
short-circuits the whole call — although the second predicate (`b`
equals `"x"`) is unsatisfied, so under the claim's AND-across-keys
reading the result should be `False`. -/
theorem checkAttrs_short_circuit_cx :
    checkAttrs (fun _ _ => false) (fun _ _ => false) (Elem.mk "Video" [] [])
      [("a", QVal.qnone), ("b", QVal.qstr "x")] = .ok true ∧
    checkAttrsClaimC3 (fun _ _ => false) (fun _ _ => false) (Elem.mk "Video" [] [])
      [("a", QVal.qnone), ("b", QVal.qstr "x")] = .ok false :=
  ⟨rfl, rfl⟩

theorem ok_of_isOk (e : Except Unit Bool) (h : exceptIsOk e = true) :
    e = .ok (extractOk e) := by
  cases e with
  | ok b => rfl
  | error u => simp [exceptIsOk] at h

theorem lastFor_mem (name : String) (l : List (String × QVal))
    (kq : String × QVal) (h : lastFor name l = some kq) : kq ∈ l := by
  induction l with
  | nil => simp [lastFor] at h
  | cons k ks ih =>
    rw [lastFor] at h
    cases hl : lastFor name ks with
    | some r =>
      rw [hl] at h
      cases h
      exact List.mem_cons_of_mem _ (ih hl)
    | none =>
      rw [hl] at h
      by_cases hk : (strippedAttr k.1 == name) = true
      · rw [if_pos hk] at h
        cases h
        exact List.mem_cons_self _ _
      · rw [if_neg hk] at h
        exact Option.noConfusion h

theorem strippedNames_cons (k : String × QVal) (ks : List (String × QVal)) :
    strippedNames (k :: ks) = strippedAttr k.1 :: strippedNames ks :=
  rfl

theorem lastFor_none_iff (name : String) (l : List (String × QVal)) :
    lastFor name l = none ↔ name ∉ strippedNames l := by
  induction l with
  | nil => simp [lastFor, strippedNames]
  | cons k ks ih =>
    rw [lastFor, strippedNames_cons]
    cases hl : lastFor name ks with
    | some r =>
      have hmem : name ∈ strippedNames ks := by
        by_contra hn
        rw [ih.mpr hn] at hl
        exact Option.noConfusion hl
      simp [hmem]
    | none =>
      have hnot : name ∉ strippedNames ks := ih.mp hl
      by_cases hk : strippedAttr k.1 = name
      · simp [hk, hnot]
      · simp [hk, hnot, Ne.symm hk]

theorem upsertFound_keys (f : List (String × Bool)) (a : String) (b : Bool) :
    (upsertFound f a b).map Prod.fst =
      if a ∈ f.map Prod.fst then f.map Prod.fst else f.map Prod.fst ++ [a] := by
  induction f with
  | nil => simp [upsertFound]
  | cons q rest ih =>
    obtain ⟨k, w⟩ := q
    by_cases hk : (k == a) = true
    · simp only [beq_iff_eq] at hk
      subst hk
      simp [upsertFound]
    · have hk' : k ≠ a := by simpa using hk
      simp only [upsertFound, hk, Bool.false_eq_true, if_false, List.map_cons, ih]
      by_cases hm : a ∈ rest.map Prod.fst
      · simp [hm, Ne.symm hk']
      · simp [hm, Ne.symm hk']

theorem upsertFound_nodup (f : List (String × Bool)) (a : String) (b : Bool)
    (h : (f.map Prod.fst).Nodup) : ((upsertFound f a b).map Prod.fst).Nodup := by
  rw [upsertFound_keys]
  by_cases hm : a ∈ f.map Prod.fst
  · rwa [if_pos hm]
  · rw [if_neg hm]
    simp [List.nodup_append, h, hm]

theorem upsertFound_mem (a : String) (b : Bool) (p : String × Bool) :
    ∀ f : List (String × Bool), (f.map Prod.fst).Nodup →
      (p ∈ upsertFound f a b ↔ (p ∈ f ∧ p.1 ≠ a) ∨ p = (a, b)) := by
  intro f
  induction f with
  | nil => intro _; simp [upsertFound]
  | cons q rest ih =>
    intro hnd
    obtain ⟨k, w⟩ := q
    rw [List.map_cons, List.nodup_cons] at hnd
    obtain ⟨hknot, hndr⟩ := hnd
    by_cases hk : (k == a) = true
    · have hka : k = a := by simpa using hk
      subst hka
      rw [show upsertFound ((k, w) :: rest) k b = (k, b) :: rest from by
        simp [upsertFound]]
      constructor
      · intro hp
        rcases List.mem_cons.mp hp with rfl | hp
        · exact Or.inr rfl
        · refine Or.inl ⟨List.mem_cons_of_mem _ hp, ?_⟩
          intro h1
          have hm : p.1 ∈ rest.map Prod.fst := List.mem_map_of_mem Prod.fst hp
          rw [h1] at hm
          exact hknot hm
      · rintro (⟨hp, hne⟩ | rfl)
        · rcases List.mem_cons.mp hp with rfl | hp
          · exact absurd rfl hne
          · exact List.mem_cons_of_mem _ hp
        · exact List.mem_cons_self _ _
    · have hk' : k ≠ a := by simpa using hk
      rw [show upsertFound ((k, w) :: rest) a b = (k, w) :: upsertFound rest a b from by
        simp [upsertFound, hk]]
      constructor
      · intro hp
        rcases List.mem_cons.mp hp with rfl | hp
        · exact Or.inl ⟨List.mem_cons_self _ _, hk'⟩
        · rcases (ih hndr).mp hp with ⟨hpf, hne⟩ | rfl
          · exact Or.inl ⟨List.mem_cons_of_mem _ hpf, hne⟩
          · exact Or.inr rfl
      · rintro (⟨hp, hne⟩ | rfl)
        · rcases List.mem_cons.mp hp with rfl | hp
          · exact List.mem_cons_self _ _
          · exact List.mem_cons_of_mem _ ((ih hndr).mpr (Or.inl ⟨hp, hne⟩))
        · exact List.mem_cons_of_mem _ ((ih hndr).mpr (Or.inr rfl))

theorem foldFound_cons (re rei : String → String → Bool) (elem : Elem)
    (f : List (String × Bool)) (kq : String × QVal) (ks : List (String × QVal)) :
    foldFound re rei elem f (kq :: ks) =
      foldFound re rei elem
        (upsertFound f (strippedAttr kq.1) (predB re rei elem kq)) ks :=
  rfl

theorem foldFound_all (re rei : String → String → Bool) (elem : Elem) :
    ∀ (l : List (String × QVal)) (f : List (String × Bool)),
      (f.map Prod.fst).Nodup →
      ((foldFound re rei elem f l).all (fun p => p.2) = true ↔
        ((∀ name ∈ strippedNames l,
            ∃ kq, lastFor name l = some kq ∧ predB re rei elem kq = true) ∧
         (∀ p ∈ f, p.1 ∉ strippedNames l → p.2 = true))) := by
  intro l
  induction l with
  | nil =>
    intro f _
    simp [foldFound, strippedNames, List.all_eq_true]
  | cons kq ks ih =>
    intro f hnd
    rw [foldFound_cons, ih _ (upsertFound_nodup f _ _ hnd), strippedNames_cons]
    constructor
    · rintro ⟨hA, hB⟩
      constructor
      · intro name hname
        rcases List.mem_cons.mp hname with heq | hmemks
        · by_cases hks : name ∈ strippedNames ks
          · obtain ⟨kq', h1, h2⟩ := hA name hks
            exact ⟨kq', by rw [lastFor, h1], h2⟩
          · have hnone : lastFor name ks = none := (lastFor_none_iff _ _).mpr hks
            have hpmem : (strippedAttr kq.1, predB re rei elem kq) ∈
                upsertFound f (strippedAttr kq.1) (predB re rei elem kq) :=
              (upsertFound_mem _ _ _ f hnd).mpr (Or.inr rfl)
            have hbk : predB re rei elem kq = true :=
              hB _ hpmem (heq ▸ hks)
            refine ⟨kq, ?_, hbk⟩
            rw [lastFor, hnone, if_pos (by simp [heq])]
        · obtain ⟨kq', h1, h2⟩ := hA name hmemks
          exact ⟨kq', by rw [lastFor, h1], h2⟩
      · intro p hp hnotin
        have hne : p.1 ≠ strippedAttr kq.1 := fun hc =>
          hnotin (by rw [hc]; exact List.mem_cons_self _ _)
        have hnotks : p.1 ∉ strippedNames ks := fun hc =>
          hnotin (List.mem_cons_of_mem _ hc)
        exact hB p ((upsertFound_mem _ _ _ f hnd).mpr (Or.inl ⟨hp, hne⟩)) hnotks
    · rintro ⟨hA, hB⟩
      constructor
      · intro name hnameks
        obtain ⟨kq', h1, h2⟩ := hA name (List.mem_cons_of_mem _ hnameks)
        obtain ⟨r, hr⟩ : ∃ r, lastFor name ks = some r := by
          cases hl : lastFor name ks with
          | some r => exact ⟨r, rfl⟩
          | none => exact absurd hnameks ((lastFor_none_iff _ _).mp hl)
        rw [lastFor, hr] at h1
        injection h1 with h1'
        exact ⟨r, hr, by rw [h1']; exact h2⟩
      · intro p hp hnotks
        rcases (upsertFound_mem _ _ _ f hnd).mp hp with ⟨hpf, hne⟩ | rfl
        · refine hB p hpf ?_
          intro hc
          rcases List.mem_cons.mp hc with h | h
          · exact hne h
          · exact hnotks h
        · have hname : strippedAttr kq.1 ∈ strippedAttr kq.1 :: strippedNames ks :=
            List.mem_cons_self _ _
          obtain ⟨kq', h1, h2⟩ := hA _ hname
          have hnone : lastFor (strippedAttr kq.1) ks = none :=
            (lastFor_none_iff _ _).mpr hnotks
          rw [lastFor, hnone, if_pos (by simp)] at h1
          cases h1
          exact h2

theorem checkAttrsGo_iff (re rei : String → String → Bool) (elem : Elem) :
    ∀ (rest : List (String × QVal)) (found : List (String × Bool)),
      (∀ kq ∈ rest, exceptIsOk (predSatisfied re rei elem kq) = true) →
      (checkAttrsGo re rei elem rest found = .ok true ↔
        ((∃ kq ∈ rest, specialHit elem kq = true) ∨
          (foldFound re rei elem found rest).all (fun p => p.2) = true)) := by
  intro rest
  induction rest with
  | nil =>
    intro found _
    simp [checkAttrsGo, foldFound]
  | cons kq ks ih =>
    intro found hok
    obtain ⟨key, query⟩ := kq
    by_cases hs : specialHit elem (key, query) = true
    · have hcond : ((getAttrOperator key).2 == "exact"
          && (getAttrValue elem (getAttrOperator key).1).isEmpty
          && isSpecialOperand query) = true := by
        simpa [specialHit] using hs
      have hrun : checkAttrsGo re rei elem ((key, query) :: ks) found = .ok true := by
        rw [checkAttrsGo, if_pos hcond]
      constructor
      · intro _
        exact Or.inl ⟨(key, query), List.mem_cons_self _ _, hs⟩
      · intro _
        exact hrun
    · have hsb : specialHit elem (key, query) = false := Bool.eq_false_iff.mpr hs
      have hcond : ((getAttrOperator key).2 == "exact"
          && (getAttrValue elem (getAttrOperator key).1).isEmpty
          && isSpecialOperand query) = false := by
        simpa [specialHit] using hsb
      have hpred : predSatisfied re rei elem (key, query) =
          .ok (predB re rei elem (key, query)) :=
        ok_of_isOk _ (hok (key, query) (List.mem_cons_self _ _))
      have hany : anyMatch re rei (getAttrOperator key).2 query
          (getAttrValue elem (getAttrOperator key).1) =
          .ok (predB re rei elem (key, query)) := by
        rw [← hpred, predSatisfied]
        rw [if_neg (by simp [hcond])]
      rw [checkAttrsGo, if_neg (by simp [hcond]), hany, except_bind_ok]
      rw [ih _ (fun kq hkq => hok kq (List.mem_cons_of_mem _ hkq))]
      have hfc : foldFound re rei elem found ((key, query) :: ks) =
          foldFound re rei elem
            (upsertFound found (getAttrOperator key).1
              (predB re rei elem (key, query))) ks := rfl
      rw [← hfc]
      constructor
      · rintro (h | h)
        · obtain ⟨kq', hm, hsp⟩ := h
          exact Or.inl ⟨kq', List.mem_cons_of_mem _ hm, hsp⟩
        · exact Or.inr h
      · rintro (h | h)
        · obtain ⟨kq', hm, hsp⟩ := h
          rcases List.mem_cons.mp hm with rfl | hm
          · exact absurd hsp hs
          · exact Or.inl ⟨kq', hm, hsp⟩
        · exact Or.inr h

/-- C3 (amended): `_checkAttrs` returns true iff either some predicate in
the mapping hits the exact-match / no-values / `None`-`0`-`''`-operand
special case — the code then returns `True` for the whole call,
short-circuiting every other predicate — or no predicate does and, for
every attribute name the filter keys strip to, the *last* predicate in
the mapping stripping to that name is satisfied (predicates sharing a
stripped attribute name overwrite one another in the `attrsFound` dict,
so earlier ones do not count); a single predicate is still satisfied by
OR across its extracted values.  Stated for mappings whose predicates
all evaluate without a Python casting/comparison exception. -/
theorem checkAttrs_characterization (re rei : String → String → Bool)
    (elem : Elem) (kwargs : List (String × QVal))
    (hok : ∀ kq ∈ kwargs, exceptIsOk (predSatisfied re rei elem kq) = true) :
    checkAttrs re rei elem kwargs = .ok true ↔
      ((∃ kq ∈ kwargs, specialHit elem kq = true) ∨
        (∀ name ∈ strippedNames kwargs,
          ∃ kq, lastFor name kwargs = some kq ∧
            predSatisfied re rei elem kq = .ok true)) := by
  rw [checkAttrs, checkAttrsGo_iff re rei elem kwargs [] hok]
  rw [foldFound_all re rei elem kwargs [] (by simp)]
  constructor
  · rintro (h | ⟨h1, _⟩)
    · exact Or.inl h
    · right
      intro name hname
      obtain ⟨kq, hl, hb⟩ := h1 name hname
      have hmem := lastFor_mem _ _ _ hl
      refine ⟨kq, hl, ?_⟩
      rw [ok_of_isOk _ (hok kq hmem)]
      rw [show extractOk (predSatisfied re rei elem kq) = true from hb]
  · rintro (h | h1)
    · exact Or.inl h
    · right
      refine ⟨?_, by simp⟩
      intro name hname
      obtain ⟨kq, hl, hsat⟩ := h1 name hname
      exact ⟨kq, hl, by simp [predB, hsat, extractOk]⟩

/-- C3 (witness): a concrete element and mapping with one satisfied
exact-match predicate — the characterization instantiates and both sides
hold. -/
theorem checkAttrs_characterization_witness :
    checkAttrs (fun _ _ => false) (fun _ _ => false)
      (Elem.mk "Video" [("title", "Cars")] []) [("title", QVal.qstr "Cars")] =
        .ok true ↔
      ((∃ kq ∈ [("title", QVal.qstr "Cars")],
          specialHit (Elem.mk "Video" [("title", "Cars")] []) kq = true) ∨
        (∀ name ∈ strippedNames [("title", QVal.qstr "Cars")],
          ∃ kq, lastFor name [("title", QVal.qstr "Cars")] = some kq ∧
            predSatisfied (fun _ _ => false) (fun _ _ => false)
              (Elem.mk "Video" [("title", "Cars")] []) kq = .ok true)) :=
  checkAttrs_characterization (fun _ _ => false) (fun _ _ => false)
    (Elem.mk "Video" [("title", "Cars")] []) [("title", QVal.qstr "Cars")]
    (by decide)

theorem findFoldBuild (re rei : String → String → Bool) (build : Elem → Option Item)
    (hb : ∀ e, build e = some ((e, none) : Item)) :
    ∀ (l : List Elem) (m : MC Item),
      List.foldlM (fun acc e => do
        let ok ← checkAttrs re rei e []
        if ok then
          match build e with
          | some it => pure (acc.push it)
          | none => pure acc
        else pure acc) (FindResult.mc m) l =
      .ok (.mc { m with items := m.items ++ l.map (fun e => ((e, none) : Item)) }) := by
  intro l
  induction l with
  | nil =>
    intro m
    rw [List.foldlM_nil]
    simp only [List.map_nil, List.append_nil]
    rfl
  | cons e es ih =>
    intro m
    rw [List.foldlM_cons]
    simp only [show checkAttrs re rei e [] = Except.ok true from rfl,
      except_bind_ok, hb e, pure_bind, eq_self_iff_true, if_true]
    rw [show (FindResult.mc m).push ((e, none) : Item) =
      FindResult.mc { m with items := m.items ++ [((e, none) : Item)] } from rfl]
    rw [ih]
    simp

theorem findItemsModel_page (re rei : String → String → Bool)
    (build : Elem → Option Item) (hb : ∀ e, build e = some ((e, none) : Item))
    (off size total : String) (children : List Elem) :
    findItemsModel re rei build (pageElem off size total children) [] =
      .ok (.mc { MC.fromElem Item (pageElem off size total children) with
        items := children.map (fun e => ((e, none) : Item)) }) := by
  simp only [findItemsModel]
  rw [show ((pageElem off size total children).tag == "MediaContainer") = true
    from rfl]
  rw [show (pageElem off size total children).children = children from rfl]
  rw [if_pos rfl]
  rw [findFoldBuild re rei build hb children]
  rfl

/-- C7: with the server reporting `totalSize=25` (20 matched items on the
first page, 5 on the second), `fetchItems` with page size 20, no explicit
start and no `maxresults` issues exactly two transport queries with
container-start headers 0 and 20, and returns a MediaContainer holding
all 25 matched items whose `offset` attribute is 0. -/
theorem fetchItems_pagination (re rei : String → String → Bool)
    (server : Int → Int → Elem) (build : Elem → Option Item)
    (els0 els1 : List Elem)
    (h0 : server 0 20 = pageElem "0" "20" "25" els0)
    (h1 : server 20 20 = pageElem "20" "5" "25" els1)
    (hl0 : els0.length = 20) (hl1 : els1.length = 5)
    (hb : ∀ e, build e = some ((e, none) : Item)) (n : Nat) :
    ∃ res, fetchItemsModel re rei server build [] none (some 20) none (n + 2) =
        .ok (res, [(0, 20), (20, 20)]) ∧
      res.items = els0.map (fun e => ((e, none) : Item)) ++
        els1.map (fun e => ((e, none) : Item)) ∧
      res.offset = some 0 ∧
      res.items.length = 25 := by
  have hstart : fetchItemsModel re rei server build [] none (some 20) none (n + 2) =
      fetchItemsLoop re rei server build [] 0 none (n + 2) 0 20
        (MC.fromElem Item (Elem.mk "MediaContainer" [] [])) [] := rfl
  have hfind0 := findItemsModel_page re rei build hb "0" "20" "25" els0
  have hfind1 := findItemsModel_page re rei build hb "20" "5" "25" els1
  have hE : MC.fromElem Item (Elem.mk "MediaContainer" [] []) =
      ⟨[], none, none, none, none, none, none, none, none, none, none, none⟩ := rfl
  have hfe0 : MC.fromElem Item (pageElem "0" "20" "25" els0) =
      ⟨[], none, none, none, none, none, none, none, none,
        some 0, some 20, some 25⟩ := rfl
  have hfe1 : MC.fromElem Item (pageElem "20" "5" "25" els1) =
      ⟨[], none, none, none, none, none, none, none, none,
        some 20, some 5, some 25⟩ := rfl
  have ht0 : castIntO (pyOrStr (attrGet (pageElem "0" "20" "25" els0) "totalSize")
      (attrGet (pageElem "0" "20" "25" els0) "size")) = some 25 := rfl
  have ht1 : castIntO (pyOrStr (attrGet (pageElem "20" "5" "25" els1) "totalSize")
      (attrGet (pageElem "20" "5" "25" els1) "size")) = some 25 := rfl
  have hs0 : castIntO (attrGet (pageElem "0" "20" "25" els0) "librarySectionID") =
      none := rfl
  have hs1 : castIntO (attrGet (pageElem "20" "5" "25" els1) "librarySectionID") =
      none := rfl
  have hmin : min (0 : Int) 20 = 0 := by norm_num
  have hloop : fetchItemsLoop re rei server build [] 0 none (n + 2) 0 20
      (MC.fromElem Item (Elem.mk "MediaContainer" [] [])) [] =
      .ok (⟨els0.map (fun e => ((e, none) : Item)) ++
          els1.map (fun e => ((e, none) : Item)),
        none, none, none, none, none, none, none, none,
        some 0, some 25, some 25⟩, [(0, 20), (20, 20)]) := by
    rw [show n + 2 = (n + 1) + 1 from rfl]
    simp only [fetchItemsLoop]
    rw [hE, h0]
    simp only [hfind0, except_bind_ok, ht0, hs0, hfe0]
    simp only [MC.extendFR, MC.extendMC]
    norm_num [List.length_map, hl0]
    rw [h1]
    simp only [hfind1, except_bind_ok]
    simp [ht1, hs1, hfe1, hmin]
  refine ⟨_, hstart.trans hloop, rfl, rfl, ?_⟩
  simp [hl0, hl1]

/-- C7 (witness): a concrete two-page server (20 then 5 stub elements)
run through the pagination model. -/
theorem fetchItems_pagination_witness :
    ∃ res, fetchItemsModel (fun _ _ => false) (fun _ _ => false)
        (fun s _ => if s == 0
          then pageElem "0" "20" "25" (List.replicate 20 (Elem.mk "Video" [] []))
          else pageElem "20" "5" "25" (List.replicate 5 (Elem.mk "Video" [] [])))
        (fun e => some ((e, none) : Item)) [] none (some 20) none 2 =
        .ok (res, [(0, 20), (20, 20)]) ∧
      res.items = (List.replicate 20 (Elem.mk "Video" [] [])).map
          (fun e => ((e, none) : Item)) ++
        (List.replicate 5 (Elem.mk "Video" [] [])).map
          (fun e => ((e, none) : Item)) ∧
      res.offset = some 0 ∧
      res.items.length = 25 :=
  fetchItems_pagination (fun _ _ => false) (fun _ _ => false)
    (fun s _ => if s == 0
      then pageElem "0" "20" "25" (List.replicate 20 (Elem.mk "Video" [] []))
      else pageElem "20" "5" "25" (List.replicate 5 (Elem.mk "Video" [] [])))
    (fun e => some ((e, none) : Item))
    (List.replicate 20 (Elem.mk "Video" [] []))
    (List.replicate 5 (Elem.mk "Video" [] []))
    (by rfl) (by rfl) (by simp) (by simp) (fun e => rfl) 0

end PlexBase
